import Mathlib

/-!
Verification of the Structurizr inventory plugin
(src/plugins/inventory/structurizr.py) against its specification.

The development shallowly embeds the plugin's core: JSON values as an
inductive type, Python dict/truthiness/str semantics as explicit functions,
fallible Python operations as Except, and the Ansible inventory object as an
explicit log of the add_host / add_group / add_child / set_variable calls
(spec section 6: those four operations define every observable effect).
Recursion over the workspace tree is indexed by explicit fuel; all claims
quantify over or instantiate the fuel.
-/

set_option maxHeartbeats 1000000

namespace Structurizr

/-- A JSON value, the shape of data produced by json.load in _read_file.
Object fields keep insertion order and have unique keys (Python dicts). -/
inductive JValue where
  | null
  | bool (b : Bool)
  | num (n : Int)
  | str (s : String)
  | list (xs : List JValue)
  | obj (fields : List (String × JValue))

mutual
/-- Structural (Python ==) equality on JSON values. -/
def beqJ : JValue → JValue → Bool
  | .null, .null => true
  | .bool a, .bool b => a == b
  | .num a, .num b => a == b
  | .str a, .str b => a == b
  | .list xs, .list ys => beqListJ xs ys
  | .obj fs, .obj gs => beqObjJ fs gs
  | _, _ => false

def beqListJ : List JValue → List JValue → Bool
  | [], [] => true
  | x :: xs, y :: ys => beqJ x y && beqListJ xs ys
  | _, _ => false

def beqObjJ : List (String × JValue) → List (String × JValue) → Bool
  | [], [] => true
  | (k1, v1) :: xs, (k2, v2) :: ys => k1 == k2 && beqJ v1 v2 && beqObjJ xs ys
  | _, _ => false
end

mutual
theorem beqJ_refl : ∀ a, beqJ a a = true
  | .null => rfl
  | .bool a => by simp [beqJ]
  | .num a => by simp [beqJ]
  | .str a => by simp [beqJ]
  | .list xs => by simp [beqJ, beqListJ_refl xs]
  | .obj fs => by simp [beqJ, beqObjJ_refl fs]

theorem beqListJ_refl : ∀ xs, beqListJ xs xs = true
  | [] => rfl
  | x :: xs => by simp [beqListJ, beqJ_refl x, beqListJ_refl xs]

theorem beqObjJ_refl : ∀ fs, beqObjJ fs fs = true
  | [] => rfl
  | (k, v) :: fs => by simp [beqObjJ, beqJ_refl v, beqObjJ_refl fs]
end

mutual
theorem eq_of_beqJ : ∀ a b, beqJ a b = true → a = b
  | .null, .null, _ => rfl
  | .bool a, .bool b, h => by simp [beqJ] at h; simp [h]
  | .num a, .num b, h => by simp [beqJ] at h; simp [h]
  | .str a, .str b, h => by simp [beqJ] at h; simp [h]
  | .list xs, .list ys, h => by
      simp only [beqJ] at h
      simp [eq_of_beqListJ xs ys h]
  | .obj fs, .obj gs, h => by
      simp only [beqJ] at h
      simp [eq_of_beqObjJ fs gs h]
  | .null, .bool _, h => by simp [beqJ] at h
  | .null, .num _, h => by simp [beqJ] at h
  | .null, .str _, h => by simp [beqJ] at h
  | .null, .list _, h => by simp [beqJ] at h
  | .null, .obj _, h => by simp [beqJ] at h
  | .bool _, .null, h => by simp [beqJ] at h
  | .bool _, .num _, h => by simp [beqJ] at h
  | .bool _, .str _, h => by simp [beqJ] at h
  | .bool _, .list _, h => by simp [beqJ] at h
  | .bool _, .obj _, h => by simp [beqJ] at h
  | .num _, .null, h => by simp [beqJ] at h
  | .num _, .bool _, h => by simp [beqJ] at h
  | .num _, .str _, h => by simp [beqJ] at h
  | .num _, .list _, h => by simp [beqJ] at h
  | .num _, .obj _, h => by simp [beqJ] at h
  | .str _, .null, h => by simp [beqJ] at h
  | .str _, .bool _, h => by simp [beqJ] at h
  | .str _, .num _, h => by simp [beqJ] at h
  | .str _, .list _, h => by simp [beqJ] at h
  | .str _, .obj _, h => by simp [beqJ] at h
  | .list _, .null, h => by simp [beqJ] at h
  | .list _, .bool _, h => by simp [beqJ] at h
  | .list _, .num _, h => by simp [beqJ] at h
  | .list _, .str _, h => by simp [beqJ] at h
  | .list _, .obj _, h => by simp [beqJ] at h
  | .obj _, .null, h => by simp [beqJ] at h
  | .obj _, .bool _, h => by simp [beqJ] at h
  | .obj _, .num _, h => by simp [beqJ] at h
  | .obj _, .str _, h => by simp [beqJ] at h
  | .obj _, .list _, h => by simp [beqJ] at h

theorem eq_of_beqListJ : ∀ xs ys, beqListJ xs ys = true → xs = ys
  | [], [], _ => rfl
  | [], _ :: _, h => by simp [beqListJ] at h
  | _ :: _, [], h => by simp [beqListJ] at h
  | x :: xs, y :: ys, h => by
      simp only [beqListJ, Bool.and_eq_true] at h
      simp [eq_of_beqJ x y h.1, eq_of_beqListJ xs ys h.2]

theorem eq_of_beqObjJ : ∀ fs gs, beqObjJ fs gs = true → fs = gs
  | [], [], _ => rfl
  | [], _ :: _, h => by simp [beqObjJ] at h
  | _ :: _, [], h => by simp [beqObjJ] at h
  | (k1, v1) :: fs, (k2, v2) :: gs, h => by
      simp only [beqObjJ, Bool.and_eq_true, beq_iff_eq] at h
      simp [h.1.1, eq_of_beqJ v1 v2 h.1.2, eq_of_beqObjJ fs gs h.2]
end

instance : DecidableEq JValue := fun a b =>
  if h : beqJ a b = true then .isTrue (eq_of_beqJ a b h)
  else .isFalse (fun he => h (he ▸ beqJ_refl a))

/-- First-match association lookup, the semantics of Python dict access for
dicts with unique keys. -/
def lookupField : List (String × JValue) → String → Option JValue
  | [], _ => none
  | (k, v) :: rest, key => if k = key then some v else lookupField rest key

/-- Python node.get(key): some v when present, none when absent.  All call
sites in the plugin invoke .get on values that are dicts; a non-dict is
treated as having no fields. -/
def jGet : JValue → String → Option JValue
  | .obj fs, key => lookupField fs key
  | _, _ => none

/-- Python node.get(key, default). -/
def jGetD (v : JValue) (key : String) (d : JValue) : JValue :=
  (jGet v key).getD d

/-- Python truthiness of a value. -/
def truthy : JValue → Bool
  | .null => false
  | .bool b => b
  | .num n => n != 0
  | .str s => s != ""
  | .list xs => !xs.isEmpty
  | .obj fs => !fs.isEmpty

mutual
/-- Python repr, used by str() on elements nested in containers. -/
def pyRepr : JValue → String
  | .null => "None"
  | .bool true => "True"
  | .bool false => "False"
  | .num n => toString n
  | .str s => "\x27" ++ s ++ "\x27"
  | .list xs => "[" ++ pyReprList xs ++ "]"
  | .obj fs => "\x7b" ++ pyReprFields fs ++ "\x7d"

def pyReprList : List JValue → String
  | [] => ""
  | [x] => pyRepr x
  | x :: y :: rest => pyRepr x ++ ", " ++ pyReprList (y :: rest)

def pyReprFields : List (String × JValue) → String
  | [] => ""
  | [(k, v)] => "\x27" ++ k ++ "\x27: " ++ pyRepr v
  | (k, v) :: f :: rest => "\x27" ++ k ++ "\x27: " ++ pyRepr v ++ ", " ++ pyReprFields (f :: rest)
end

/-- Python str() conversion (f-string interpolation, str(...) calls). -/
def pyStr : JValue → String
  | .str s => s
  | v => pyRepr v

/-- Python iteration over a value (for x in v).  Lists yield elements,
strings yield one-character strings, dicts yield their keys; other values
raise TypeError. -/
def pyIterate : JValue → Except String (List JValue)
  | .list xs => .ok xs
  | .str s => .ok (s.data.map fun c => .str (String.mk [c]))
  | .obj fs => .ok (fs.map fun kv => JValue.str kv.1)
  | _ => .error "TypeError: object is not iterable"

/-- Python sep.join(xs): every element must be a string, else TypeError. -/
def pyJoin (sep : String) (xs : List JValue) : Except String String := do
  let parts ← xs.mapM fun v =>
    match v with
    | .str s => Except.ok s
    | _ => Except.error "TypeError: sequence item is not str"
  Except.ok (String.intercalate sep parts)

/-- Python p[key] subscription on an arbitrary value: KeyError when the key
is missing from a dict, TypeError on non-dict values. -/
def pySubscript (v : JValue) (key : String) : Except String JValue :=
  match v with
  | .obj fs =>
      match lookupField fs key with
      | some x => .ok x
      | none => .error "KeyError"
  | _ => .error "TypeError: value is not subscriptable"

/-- Whether a value may be used as a Python dict key (lists and dicts are
unhashable). -/
def isHashable : JValue → Bool
  | .list _ => false
  | .obj _ => false
  | _ => true

/-- Python d[k] = v on a dict with JValue keys: update in place when the key
exists (keeping its position), else append. -/
def dictSetJ : List (JValue × JValue) → JValue → JValue → List (JValue × JValue)
  | [], k, v => [(k, v)]
  | (k0, v0) :: rest, k, v =>
      if k0 = k then (k0, v) :: rest else (k0, v0) :: dictSetJ rest k v

/-- Python d.get(k, default) on a dict with JValue keys. -/
def dictGetJ (d : List (JValue × JValue)) (k : JValue) (default : JValue) : JValue :=
  match d.find? (fun kv => kv.1 == k) with
  | some kv => kv.2
  | none => default

/-- Python d[k] = v on a dict with string keys (the host_vars dict). -/
def dictSetS : List (String × JValue) → String → JValue → List (String × JValue)
  | [], k, v => [(k, v)]
  | (k0, v0) :: rest, k, v =>
      if k0 = k then (k0, v) :: rest else (k0, v0) :: dictSetS rest k v

/-- Python str.startswith, via an explicit character-prefix test. -/
def charsLead : List Char → List Char → Bool
  | [], _ => true
  | _ :: _, [] => false
  | a :: as, b :: bs => a == b && charsLead as bs

def pyStartsWith (s p : String) : Bool := charsLead p.data s.data

/-- Python str.split(sep) for a one-character separator: every occurrence
splits, and the empty string yields [""]. -/
def pySplitChar (sep : Char) : List Char → List (List Char)
  | [] => [[]]
  | c :: cs =>
      let r := pySplitChar sep cs
      if c == sep then [] :: r
      else
        match r with
        | [] => [[c]]
        | h :: t => (c :: h) :: t

/-- Python s.split(","). -/
def pySplitOnComma (s : String) : List String :=
  (pySplitChar ',' s.data).map String.mk

/-- The whitespace stripped by Python str.strip(). -/
def isPyWhitespace (c : Char) : Bool :=
  c == ' ' || c == '\t' || c == '\n' || c == '\r' || c == '\x0b' || c == '\x0c'

/-- Python str.strip(). -/
def pyStrip (s : String) : String :=
  String.mk (((s.data.dropWhile isPyWhitespace).reverse.dropWhile isPyWhitespace).reverse)

/-- Python equality between an arbitrary value and a str: true only for an
equal str (cross-type equality is false). -/
def pyEqJStr (v : JValue) (s : String) : Bool :=
  match v with
  | .str t => t == s
  | _ => false

/-- The plugin options consumed via get_option (DOCUMENTATION block).
property_pfx models the property_prefix option. -/
structure Options where
  environment : Option String
  include_infrastructure_nodes : Bool
  include_software_system_instances : Bool
  include_container_instances : Bool
  group_by_environment : Bool
  group_by_tags : Bool
  group_by_technology : Bool
  group_by_hierarchy : Bool
  host_identifier : String
  property_pfx : String
  ansible_property_passthrough : List String
deriving DecidableEq

/-- The documented defaults of the options. -/
def defaultOptions : Options where
  environment := none
  include_infrastructure_nodes := true
  include_software_system_instances := false
  include_container_instances := false
  group_by_environment := true
  group_by_tags := true
  group_by_technology := false
  group_by_hierarchy := true
  host_identifier := "name"
  property_pfx := ""
  ansible_property_passthrough := []

/-- Characters kept verbatim by re.sub(r"[^a-zA-Z0-9_]", "_", name). -/
def isAllowedChar (c : Char) : Bool :=
  let n := c.toNat
  (decide (97 ≤ n) && decide (n ≤ 122)) ||
  (decide (65 ≤ n) && decide (n ≤ 90)) ||
  (decide (48 ≤ n) && decide (n ≤ 57)) ||
  decide (n = 95)

/-- Python str.isdigit on the single (post-substitution, hence ASCII)
character checked in _sanitize_group_name. -/
def isDigitChar (c : Char) : Bool :=
  decide (48 ≤ c.toNat) && decide (c.toNat ≤ 57)

/-- The substitution re.sub(r"[^a-zA-Z0-9_]", "_", name) acts per character. -/
def replaceChar (c : Char) : Char :=
  if isAllowedChar c then c else '_'

/-- The leading-digit guard: if sanitized and sanitized[0].isdigit(), put an
underscore in front. -/
def leadingDigitFix (l : List Char) : List Char :=
  match l with
  | [] => []
  | c :: cs => if isDigitChar c then '_' :: c :: cs else c :: cs

/-- _sanitize_group_name: replace characters outside [a-zA-Z0-9_] with
underscores, prefix an underscore when the result starts with a digit,
lowercase.  Char.toLower agrees with Python str.lower on the ASCII-only
strings produced by the substitution step. -/
def sanitize_group_name (name : String) : String :=
  String.mk ((leadingDigitFix (name.data.map replaceChar)).map Char.toLower)

/-- _normalize_properties: accept either the list format
[{"name": k, "value": v}, ...] (building a dict entry by entry, raising
KeyError/TypeError on malformed entries exactly as the dict comprehension
does) or the dict format, and return an empty dict for any other shape. -/
def buildPropsDict : List JValue → List (JValue × JValue) →
    Except String (List (JValue × JValue))
  | [], acc => .ok acc
  | p :: ps, acc => do
      let n ← pySubscript p "name"
      let v ← pySubscript p "value"
      if isHashable n then
        buildPropsDict ps (dictSetJ acc n v)
      else
        .error "TypeError: unhashable type"

def normalize_properties (node : JValue) : Except String (List (JValue × JValue)) :=
  let props := jGetD node "properties" (.obj [])
  match props with
  | .list xs => buildPropsDict xs []
  | .obj fs => .ok (fs.map fun kv => (JValue.str kv.1, kv.2))
  | _ => .ok []

/-- _get_host_identifier. -/
def get_host_identifier (opts : Options) (node : JValue) : Except String JValue :=
  if opts.host_identifier = "id" then
    .ok (.str (pyStr (jGetD node "id" (jGetD node "name" .null))))
  else if opts.host_identifier = "name" then
    .ok (jGetD node "name" .null)
  else do
    let props ← normalize_properties node
    .ok (dictGetJ props (.str opts.host_identifier) (jGetD node "name" .null))

/-- The variable key under which the properties loop of _extract_host_vars
stores a property: names starting with the reserved "ansible_" prefix and
names in the passthrough allow-list are kept verbatim, all others get the
configured property prefix (an empty prefix stores the name directly). -/
def emitted_key (opts : Options) (s : String) : String :=
  if pyStartsWith s "ansible_" || opts.ansible_property_passthrough.contains s then s
  else if opts.property_pfx != "" then opts.property_pfx ++ s else s

/-- The fixed-key writes of _extract_host_vars (id, name, description,
technology, tags, environment, hierarchy), before the properties loop. -/
def base_host_vars (node : JValue) (environment : JValue)
    (hierarchy : List JValue) : Except String (List (String × JValue)) := do
  let hv := dictSetS [] "structurizr_id" (jGetD node "id" .null)
  let hv := dictSetS hv "structurizr_name" (jGetD node "name" .null)
  let hv := if truthy (jGetD node "description" .null) then
      dictSetS hv "structurizr_description" (jGetD node "description" .null)
    else hv
  let hv := if truthy (jGetD node "technology" .null) then
      dictSetS hv "technology" (jGetD node "technology" .null)
    else hv
  let hv ← if truthy (jGetD node "tags" .null) then
      match jGetD node "tags" (.str "") with
      | .str s =>
          Except.ok (dictSetS hv "structurizr_tags"
            (.list ((pySplitOnComma s).map fun t => JValue.str (pyStrip t))))
      | _ => Except.error "AttributeError: split"
    else Except.ok hv
  let hv := if truthy environment then
      dictSetS hv "structurizr_environment" environment
    else hv
  let hv := if truthy (.list hierarchy) then
      dictSetS hv "structurizr_hierarchy" (.list hierarchy)
    else hv
  Except.ok hv

/-- The properties loop body of _extract_host_vars: store the value under
the emitted key; a non-string property name raises AttributeError at the
startswith call before any key is computed. -/
def prop_step (opts : Options) (acc : List (String × JValue)) (kv : JValue × JValue) :
    Except String (List (String × JValue)) :=
  match kv.1 with
  | .str s => Except.ok (dictSetS acc (emitted_key opts s) kv.2)
  | _ => Except.error "AttributeError: startswith"

/-- _extract_host_vars: the fixed-key writes followed by the properties loop. -/
def extract_host_vars (opts : Options) (node : JValue) (environment : JValue)
    (hierarchy : List JValue) : Except String (List (String × JValue)) := do
  let hv ← base_host_vars node environment hierarchy
  let props ← normalize_properties node
  props.foldlM (prop_step opts) hv

/-- The external inventory store, recorded as the sequence of operations the
plugin performs on it. -/
structure Inventory where
  hosts : List JValue
  groups : List String
  children : List (String × JValue)
  hostVariables : List (JValue × String × JValue)
deriving DecidableEq

def emptyInventory : Inventory := ⟨[], [], [], []⟩

def Inventory.add_host (inv : Inventory) (h : JValue) : Inventory :=
  { inv with hosts := inv.hosts ++ [h] }

def Inventory.add_group (inv : Inventory) (g : String) : Inventory :=
  { inv with groups := inv.groups ++ [g] }

def Inventory.add_child (inv : Inventory) (g : String) (c : JValue) : Inventory :=
  { inv with children := inv.children ++ [(g, c)] }

def Inventory.set_variable (inv : Inventory) (h : JValue) (k : String) (v : JValue) :
    Inventory :=
  { inv with hostVariables := inv.hostVariables ++ [(h, k, v)] }

/-- The set_variable loop of _add_host_to_inventory. -/
def set_host_vars (inv : Inventory) (host_name : JValue)
    (host_vars : List (String × JValue)) : Inventory :=
  host_vars.foldl (fun i kv => i.set_variable host_name kv.1 kv.2) inv

/-- The "Add to environment group" block of _add_host_to_inventory. -/
def add_env_group (opts : Options) (environment : JValue) (host_name : JValue)
    (inv : Inventory) : Inventory :=
  if truthy environment && opts.group_by_environment then
    let env_group := sanitize_group_name ("env_" ++ pyStr environment)
    (inv.add_group env_group).add_child env_group host_name
  else inv

/-- The "Add to tag groups" block of _add_host_to_inventory.  Splitting a
non-string tags value raises AttributeError. -/
def add_tag_groups (opts : Options) (node : JValue) (host_name : JValue)
    (inv : Inventory) : Except String Inventory :=
  if opts.group_by_tags && truthy (jGetD node "tags" .null) then
    match jGetD node "tags" (.str "") with
    | .str s =>
        Except.ok ((pySplitOnComma s).foldl (fun i t =>
          let tag := pyStrip t
          if tag != "" && tag != "Element" && tag != "Deployment Node" &&
              tag != "Infrastructure Node" then
            let tag_group := sanitize_group_name ("tag_" ++ tag)
            (i.add_group tag_group).add_child tag_group host_name
          else i) inv)
    | _ => Except.error "AttributeError: split"
  else Except.ok inv

/-- The "Add to technology group" block of _add_host_to_inventory. -/
def add_tech_group (opts : Options) (node : JValue) (host_name : JValue)
    (inv : Inventory) : Inventory :=
  if opts.group_by_technology && truthy (jGetD node "technology" .null) then
    let tech_group := sanitize_group_name ("tech_" ++ pyStr (jGetD node "technology" .null))
    (inv.add_group tech_group).add_child tech_group host_name
  else inv

/-- The "Add to hierarchy groups" block of _add_host_to_inventory, with its
guard skipping a group equal (as a Python value) to the host name. -/
def add_hierarchy_groups (opts : Options) (parent_groups : List String)
    (host_name : JValue) (inv : Inventory) : Inventory :=
  if opts.group_by_hierarchy && !parent_groups.isEmpty then
    parent_groups.foldl (fun i group =>
      if pyEqJStr host_name group then i
      else (i.add_group group).add_child group host_name) inv
  else inv

/-- _add_host_to_inventory. -/
def add_host_to_inventory (opts : Options) (node : JValue) (environment : JValue)
    (hierarchy : List JValue) (parent_groups : List String) (inv : Inventory) :
    Except String Inventory := do
  let host_name ← get_host_identifier opts node
  if truthy host_name = false then
    Except.ok inv
  else do
    let inv := inv.add_host host_name
    let host_vars ← extract_host_vars opts node environment hierarchy
    let inv := set_host_vars inv host_name host_vars
    let inv := add_env_group opts environment host_name inv
    let inv ← add_tag_groups opts node host_name inv
    let inv := add_tech_group opts node host_name inv
    let inv := add_hierarchy_groups opts parent_groups host_name inv
    Except.ok inv

/-- _is_leaf_deployment_node. -/
def is_leaf_deployment_node (node : JValue) : Bool :=
  !truthy (jGetD node "children" (.list []))

/-- The "Create group for this level" block of _process_deployment_node:
when the node has children and hierarchy grouping is on, register the
hierarchy group and link it under every non-self-referential ancestor. -/
def register_hierarchy_group (opts : Options) (node : JValue)
    (current_group : String) (parent_groups : List String) (inv : Inventory) :
    Inventory :=
  if truthy (jGetD node "children" .null) && opts.group_by_hierarchy then
    let i := inv.add_group current_group
    if !parent_groups.isEmpty then
      parent_groups.foldl (fun i2 pg =>
        if pg == current_group then i2
        else i2.add_child pg (.str current_group)) i
    else i
  else inv

/-- The "Add leaf deployment nodes as hosts" block of
_process_deployment_node. -/
def leaf_step (opts : Options) (node environment : JValue)
    (current_hierarchy : List JValue) (new_parent_groups : List String)
    (inv : Inventory) : Except String Inventory :=
  if is_leaf_deployment_node node then
    add_host_to_inventory opts node environment current_hierarchy
      new_parent_groups inv
  else Except.ok inv

/-- One of the three instance-processing blocks of _process_deployment_node:
when the flag option is set, materialize a host for every attached node
under the given key. -/
def instances_step (opts : Options) (flag : Bool) (key : String)
    (node environment : JValue) (current_hierarchy : List JValue)
    (new_parent_groups : List String) (inv : Inventory) :
    Except String Inventory :=
  if flag then do
    let xs ← pyIterate (jGetD node key (.list []))
    xs.foldlM (fun i n =>
      add_host_to_inventory opts n environment current_hierarchy
        new_parent_groups i) inv
  else Except.ok inv

/-- _process_deployment_node, with explicit fuel bounding recursion depth. -/
def process_deployment_node (opts : Options) :
    Nat → JValue → JValue → List JValue → List String → Inventory →
    Except String Inventory
  | 0, _, _, _, _, _ => Except.error "RecursionError"
  | Nat.succ fuel, node, environment, hierarchy, parent_groups, inv => do
      let node_name := jGetD node "name" (.str "")
      let current_hierarchy := hierarchy ++ [node_name]
      let joined ← pyJoin "_" current_hierarchy
      let current_group := sanitize_group_name joined
      let inv := register_hierarchy_group opts node current_group parent_groups inv
      let new_parent_groups :=
        if current_group != "" then parent_groups ++ [current_group] else parent_groups
      let children ← pyIterate (jGetD node "children" (.list []))
      let inv ← children.foldlM (fun i c =>
        process_deployment_node opts fuel c environment current_hierarchy
          new_parent_groups i) inv
      let inv ← leaf_step opts node environment current_hierarchy
        new_parent_groups inv
      let inv ← instances_step opts opts.include_infrastructure_nodes
        "infrastructureNodes" node environment current_hierarchy
        new_parent_groups inv
      let inv ← instances_step opts opts.include_software_system_instances
        "softwareSystemInstances" node environment current_hierarchy
        new_parent_groups inv
      let inv ← instances_step opts opts.include_container_instances
        "containerInstances" node environment current_hierarchy
        new_parent_groups inv
      Except.ok inv

/-- The environment filter of _parse_workspace: skip the subtree when a
non-empty filter is configured and the label differs (Python truthiness of
the option and Python != between the label value and the filter string). -/
def env_filter_skips (opts : Options) (env_name : JValue) : Bool :=
  match opts.environment with
  | some f => f != "" && !(pyEqJStr env_name f)
  | none => false

/-- The per-top-level-node body of _parse_workspace: derive the environment
label, apply the environment filter, then dispatch the walk. -/
def process_env_node (opts : Options) (fuel : Nat) (env_node : JValue)
    (inv : Inventory) : Except String Inventory := do
  let env_name := jGetD env_node "environment" (jGetD env_node "name" .null)
  if env_filter_skips opts env_name then Except.ok inv
  else do
    let entities ← pyIterate (jGetD env_node "children" (.list [env_node]))
    entities.foldlM (fun i node =>
      if node == env_node && !truthy (jGetD env_node "children" .null) then
        process_deployment_node opts fuel node env_name [] [] i
      else if node != env_node then
        process_deployment_node opts fuel node env_name [] [] i
      else Except.ok i) inv

/-- _parse_workspace. -/
def parse_workspace (opts : Options) (fuel : Nat) (workspace_data : JValue)
    (inv : Inventory) : Except String Inventory := do
  let model := jGetD workspace_data "model" (.obj [])
  let deployment_nodes := jGetD model "deploymentNodes" (.list [])
  let nodes ← pyIterate deployment_nodes
  nodes.foldlM (fun i n => process_env_node opts fuel n i) inv

/-! ## General helper lemmas -/

theorem ebind_ok {α β ε : Type} (a : α) (f : α → Except ε β) :
    (Except.ok a >>= f) = f a := rfl

theorem ebind_error {α β ε : Type} (e : ε) (f : α → Except ε β) :
    ((Except.error e : Except ε α) >>= f) = Except.error e := rfl

theorem map_id_of_mem {α : Type} {f : α → α} :
    ∀ (l : List α), (∀ a ∈ l, f a = a) → l.map f = l
  | [], _ => rfl
  | a :: l, h => by
      simp only [List.map_cons, h a (by simp)]
      rw [map_id_of_mem l (fun x hx => h x (by simp [hx]))]

/-! ## Character-level lemmas about the sanitizer -/

theorem char_toNat_ofNat_valid {n : Nat} (h : n < 55296) :
    (Char.ofNat n).toNat = n := by
  rw [Char.ofNat, dif_pos (Or.inl h : n.isValidChar)]
  rfl

theorem char_toLower_toNat (c : Char) :
    (Char.toLower c).toNat =
      if c.toNat ≥ 65 ∧ c.toNat ≤ 90 then c.toNat + 32 else c.toNat := by
  unfold Char.toLower
  split
  case isTrue h => rw [if_pos h, char_toNat_ofNat_valid (by omega)]
  case isFalse h => rw [if_neg h]

theorem char_toLower_eq_self {c : Char} (h : ¬(c.toNat ≥ 65 ∧ c.toNat ≤ 90)) :
    Char.toLower c = c := by
  unfold Char.toLower
  exact if_neg h

theorem char_toLower_idem (c : Char) :
    Char.toLower (Char.toLower c) = Char.toLower c := by
  apply char_toLower_eq_self
  rw [char_toLower_toNat]
  split <;> omega

theorem isAllowedChar_iff (c : Char) :
    isAllowedChar c = true ↔
      (97 ≤ c.toNat ∧ c.toNat ≤ 122) ∨ (65 ≤ c.toNat ∧ c.toNat ≤ 90) ∨
      (48 ≤ c.toNat ∧ c.toNat ≤ 57) ∨ c.toNat = 95 := by
  simp [isAllowedChar, Bool.or_eq_true, Bool.and_eq_true, decide_eq_true_eq, or_assoc]

theorem isDigitChar_iff (c : Char) :
    isDigitChar c = true ↔ 48 ≤ c.toNat ∧ c.toNat ≤ 57 := by
  simp [isDigitChar, Bool.and_eq_true, decide_eq_true_eq]

theorem isAllowedChar_toLower {c : Char} (h : isAllowedChar c = true) :
    isAllowedChar (Char.toLower c) = true := by
  rw [isAllowedChar_iff] at h ⊢
  rw [char_toLower_toNat]
  split <;> omega

theorem isDigitChar_toLower {c : Char} (h : isDigitChar c = false) :
    isDigitChar (Char.toLower c) = false := by
  rw [← Bool.not_eq_true] at h ⊢
  rw [isDigitChar_iff] at h ⊢
  rw [char_toLower_toNat]
  split <;> omega

theorem isAllowedChar_replaceChar (c : Char) :
    isAllowedChar (replaceChar c) = true := by
  unfold replaceChar
  split
  case isTrue h => exact h
  case isFalse h => decide

theorem replaceChar_of_allowed {c : Char} (h : isAllowedChar c = true) :
    replaceChar c = c := by
  unfold replaceChar
  exact if_pos h

theorem mem_leadingDigitFix {c : Char} :
    ∀ {l : List Char}, c ∈ leadingDigitFix l → c = '_' ∨ c ∈ l := by
  intro l h
  match l with
  | [] => exact Or.inr h
  | d :: ds =>
      simp only [leadingDigitFix] at h
      split at h
      · rcases List.mem_cons.mp h with h1 | h1
        · exact Or.inl h1
        · exact Or.inr h1
      · exact Or.inr h

theorem leadingDigitFix_head_not_digit :
    ∀ (l : List Char), leadingDigitFix l = [] ∨
      ∃ d ds, leadingDigitFix l = d :: ds ∧ isDigitChar d = false := by
  intro l
  match l with
  | [] => exact Or.inl rfl
  | c :: cs =>
      simp only [leadingDigitFix]
      by_cases h : isDigitChar c = true
      · rw [if_pos h]
        exact Or.inr ⟨'_', c :: cs, rfl, by decide⟩
      · rw [if_neg h]
        exact Or.inr ⟨c, cs, rfl, by simpa using h⟩

theorem sanitize_chars_allowed {c : Char} {name : String}
    (h : c ∈ (sanitize_group_name name).data) : isAllowedChar c = true := by
  unfold sanitize_group_name at h
  simp only [String.mk] at h
  rw [List.mem_map] at h
  obtain ⟨d, hd, rfl⟩ := h
  rcases mem_leadingDigitFix hd with h1 | h1
  · subst h1
    exact isAllowedChar_toLower (by decide)
  · rw [List.mem_map] at h1
    obtain ⟨e, _, rfl⟩ := h1
    exact isAllowedChar_toLower (isAllowedChar_replaceChar e)

/-- Claim C9 helper: the leading character of a sanitized name is never a digit. -/
theorem sanitize_head_not_digit (name : String) :
    (sanitize_group_name name).data = [] ∨
      ∃ d ds, (sanitize_group_name name).data = d :: ds ∧ isDigitChar d = false := by
  unfold sanitize_group_name
  simp only [String.mk]
  rcases leadingDigitFix_head_not_digit (name.data.map replaceChar) with h | ⟨d, ds, hd, hnd⟩
  · rw [h]; exact Or.inl rfl
  · rw [hd]
    exact Or.inr ⟨Char.toLower d, ds.map Char.toLower, rfl, isDigitChar_toLower hnd⟩

theorem sanitize_data (name : String) :
    (sanitize_group_name name).data =
      (leadingDigitFix (name.data.map replaceChar)).map Char.toLower := rfl

/-- Claim C9: sanitization is idempotent. -/
theorem sanitize_group_name_idempotent (name : String) :
    sanitize_group_name (sanitize_group_name name) = sanitize_group_name name := by
  have hrep : (sanitize_group_name name).data.map replaceChar =
      (sanitize_group_name name).data :=
    map_id_of_mem _ (fun c hc => replaceChar_of_allowed (sanitize_chars_allowed hc))
  have hfix : leadingDigitFix (sanitize_group_name name).data =
      (sanitize_group_name name).data := by
    rcases sanitize_head_not_digit name with h | ⟨d, ds, hd, hnd⟩
    · rw [h]; rfl
    · rw [hd]
      simp only [leadingDigitFix]
      rw [if_neg (by simp [hnd])]
  have hlow : (sanitize_group_name name).data.map Char.toLower =
      (sanitize_group_name name).data := by
    rw [sanitize_data, List.map_map]
    exact List.map_congr_left (fun c _ => char_toLower_idem c)
  apply String.ext
  rw [sanitize_data (sanitize_group_name name), hrep, hfix, hlow]

/-! ## Property-normalizer lemmas (claims C3 and C7) -/

def exceptOk {ε α : Type} : Except ε α → Bool
  | .ok _ => true
  | .error _ => false

/-- An entry of a list-shaped properties value that the dict comprehension in
_normalize_properties accepts: a mapping carrying both a name and a value,
whose name is hashable. -/
def well_formed_prop_entry (p : JValue) : Bool :=
  match pySubscript p "name", pySubscript p "value" with
  | .ok n, .ok _ => isHashable n
  | _, _ => false

/-- Re-encoding of a dict-shaped properties value in the list shape. -/
def encodeProps (fs : List (String × JValue)) : List JValue :=
  fs.map fun kv => .obj [("name", .str kv.1), ("value", kv.2)]

theorem buildPropsDict_isOk :
    ∀ (xs : List JValue) (acc : List (JValue × JValue)),
      exceptOk (buildPropsDict xs acc) = xs.all well_formed_prop_entry := by
  intro xs
  induction xs with
  | nil => intro acc; rfl
  | cons p ps ih =>
      intro acc
      rw [List.all_cons]
      rcases h1 : pySubscript p "name" with e1 | n
      · simp [buildPropsDict, h1, ebind_error, well_formed_prop_entry, exceptOk]
      · rcases h2 : pySubscript p "value" with e2 | v
        · simp [buildPropsDict, h1, h2, ebind_ok, ebind_error,
            well_formed_prop_entry, exceptOk]
        · rcases h3 : isHashable n with _ | _
          · simp [buildPropsDict, h1, h2, h3, ebind_ok,
              well_formed_prop_entry, exceptOk]
          · simp [buildPropsDict, h1, h2, h3, ebind_ok,
              well_formed_prop_entry, ih]

theorem dictSetJ_fresh {k : JValue} (v : JValue) :
    ∀ (d : List (JValue × JValue)), k ∉ d.map Prod.fst →
      dictSetJ d k v = d ++ [(k, v)] := by
  intro d
  induction d with
  | nil => intro _; rfl
  | cons kv rest ih =>
      intro h
      rw [List.map_cons, List.mem_cons] at h
      push_neg at h
      simp only [dictSetJ]
      rw [if_neg (fun he => h.1 he.symm), ih h.2, List.cons_append]

theorem fold_dictSetJ_fresh :
    ∀ (fs : List (String × JValue)) (acc : List (JValue × JValue)),
      (fs.map Prod.fst).Nodup →
      (∀ k ∈ fs.map Prod.fst, JValue.str k ∉ acc.map Prod.fst) →
      List.foldl (fun a kv => dictSetJ a (JValue.str kv.1) kv.2) acc fs =
        acc ++ fs.map (fun kv => (JValue.str kv.1, kv.2)) := by
  intro fs
  induction fs with
  | nil => intro acc _ _; simp
  | cons kv rest ih =>
      intro acc hnd hfresh
      rw [List.map_cons, List.nodup_cons] at hnd
      simp only [List.foldl_cons]
      rw [dictSetJ_fresh kv.2 acc (hfresh kv.1 (by simp))]
      rw [ih (acc ++ [(JValue.str kv.1, kv.2)]) hnd.2 ?fresh]
      · simp
      case fresh =>
        intro k hk
        rw [List.map_append, List.mem_append]
        push_neg
        refine ⟨hfresh k (by simp [hk]), ?_⟩
        simp only [List.map_cons, List.map_nil, List.mem_singleton]
        intro he
        have : k = kv.1 := by
          have := he
          injection this
        exact hnd.1 (this ▸ hk)

theorem buildPropsDict_encoded :
    ∀ (fs : List (String × JValue)) (acc : List (JValue × JValue)),
      buildPropsDict (encodeProps fs) acc =
        Except.ok (List.foldl (fun a kv => dictSetJ a (JValue.str kv.1) kv.2) acc fs) := by
  intro fs
  induction fs with
  | nil => intro acc; rfl
  | cons kv rest ih =>
      intro acc
      simp only [encodeProps, List.map_cons]
      simp only [buildPropsDict, pySubscript, lookupField]
      simp only [encodeProps] at ih
      simp [ebind_ok, isHashable, ih]

/-- Claim C3 counterexample: a list-shaped properties value whose entry lacks the
name key makes the normalizer raise a KeyError instead of degrading to an
empty mapping. -/
theorem normalize_properties_raises_on_malformed_entry :
    normalize_properties
      (JValue.obj [("name", .str "web01"), ("properties", .list [.obj []])]) =
      Except.error "KeyError" := rfl

/-- Claim C3 amended: the normalizer treats an absent properties field as the empty
mapping, never raises on a non-list shape, and raises on a list shape exactly
when some entry is not a mapping carrying both name and value (with a
hashable name). -/
theorem normalize_properties_error_characterization (node : JValue) :
    (jGet node "properties" = none → normalize_properties node = Except.ok []) ∧
    (exceptOk (normalize_properties node) =
      (match jGetD node "properties" (.obj []) with
       | .list xs => xs.all well_formed_prop_entry
       | _ => true)) := by
  constructor
  · intro h
    simp [normalize_properties, jGetD, h]
  · rcases h : jGetD node "properties" (.obj []) with _ | b | n | s | xs | fs
    · simp [normalize_properties, h, exceptOk]
    · simp [normalize_properties, h, exceptOk]
    · simp [normalize_properties, h, exceptOk]
    · simp [normalize_properties, h, exceptOk]
    · simp [normalize_properties, h, buildPropsDict_isOk]
    · simp [normalize_properties, h, exceptOk]

/-- A closed instance of the C3 amended theorem: absent properties degrade to
the empty mapping, a dict-shaped properties value is accepted, and the
malformed list entry is exactly what makes the ok-status false. -/
theorem normalize_properties_error_characterization_witness :
    normalize_properties (JValue.obj [("name", .str "a")]) = Except.ok [] ∧
    exceptOk (normalize_properties
      (JValue.obj [("properties", .list [.obj []])])) = false := by
  constructor
  · exact (normalize_properties_error_characterization
      (JValue.obj [("name", .str "a")])).1 rfl
  · have h := (normalize_properties_error_characterization
      (JValue.obj [("properties", .list [.obj []])])).2
    rw [h]
    decide

/-- Claim C7: the normalizer returns the empty mapping for absent, empty-list and
empty-dict properties, and the list and dict encodings of the same property
data normalize identically. -/
theorem normalize_properties_shapes (node : JValue) :
    (jGet node "properties" = none → normalize_properties node = Except.ok []) ∧
    (jGet node "properties" = some (.list []) → normalize_properties node = Except.ok []) ∧
    (jGet node "properties" = some (.obj []) → normalize_properties node = Except.ok []) ∧
    (∀ (fs : List (String × JValue)) (node2 : JValue),
      jGet node "properties" = some (.obj fs) →
      jGet node2 "properties" = some (.list (encodeProps fs)) →
      (fs.map Prod.fst).Nodup →
      normalize_properties node2 = normalize_properties node) := by
  refine ⟨?_, ?_, ?_, ?_⟩
  · intro h; simp [normalize_properties, jGetD, h]
  · intro h; simp [normalize_properties, jGetD, h, buildPropsDict]
  · intro h; simp [normalize_properties, jGetD, h]
  · intro fs node2 h1 h2 hnd
    simp only [normalize_properties, jGetD, h1, h2, Option.getD_some]
    rw [buildPropsDict_encoded fs []]
    rw [fold_dictSetJ_fresh fs [] hnd (by simp)]
    simp

/-- A closed instance of the C7 theorem: the two encodings of the same two
properties normalize to the same mapping, and an empty list of properties
normalizes to the empty mapping. -/
theorem normalize_properties_shapes_witness :
    normalize_properties (JValue.obj [("properties",
        .list [.obj [("name", .str "a"), ("value", .str "1")],
               .obj [("name", .str "b"), ("value", .str "2")]])]) =
      normalize_properties (JValue.obj [("properties",
        .obj [("a", .str "1"), ("b", .str "2")])]) ∧
    normalize_properties (JValue.obj [("properties", .list [])]) = Except.ok [] := by
  constructor
  · exact (normalize_properties_shapes
      (JValue.obj [("properties", .obj [("a", .str "1"), ("b", .str "2")])])).2.2.2
      [("a", .str "1"), ("b", .str "2")]
      (JValue.obj [("properties",
        .list [.obj [("name", .str "a"), ("value", .str "1")],
               .obj [("name", .str "b"), ("value", .str "2")]])])
      rfl rfl (by decide)
  · exact (normalize_properties_shapes
      (JValue.obj [("properties", .list [])])).2.1 rfl

/-! ## Host-identifier resolution (claims C5, C10) and skipping (claim C8) -/

/-- Claim C5 counterexample: in a property identifier mode, a node with a malformed
list-shaped properties value makes identifier resolution raise. -/
theorem get_host_identifier_counterexample :
    get_host_identifier { defaultOptions with host_identifier := "fqdn" }
      (JValue.obj [("name", .str "x"), ("properties", .list [.obj []])]) =
      Except.error "KeyError" := rfl

/-- Claim C5 amended: whenever property normalization succeeds, identifier
resolution never raises and returns the id (string-converted, falling back to
the name) in mode "id", the name verbatim in mode "name", and in any other
mode the like-named property value, falling back to the name. -/
theorem get_host_identifier_total (opts : Options) (node : JValue)
    (ps : List (JValue × JValue)) (hps : normalize_properties node = Except.ok ps) :
    (opts.host_identifier = "id" →
      get_host_identifier opts node =
        Except.ok (.str (pyStr (jGetD node "id" (jGetD node "name" .null))))) ∧
    (opts.host_identifier = "name" →
      get_host_identifier opts node = Except.ok (jGetD node "name" .null)) ∧
    (opts.host_identifier ≠ "id" → opts.host_identifier ≠ "name" →
      get_host_identifier opts node =
        Except.ok (dictGetJ ps (.str opts.host_identifier) (jGetD node "name" .null))) := by
  refine ⟨?_, ?_, ?_⟩
  · intro h; simp [get_host_identifier, h]
  · intro h; simp [get_host_identifier, h]
  · intro h1 h2
    simp [get_host_identifier, h1, h2, hps, ebind_ok]

/-- A closed instance of the C5 amended theorem: host_identifier "fqdn" on a
node named "x" without the property falls back to "x", and with the property
returns its value. -/
theorem get_host_identifier_total_witness :
    get_host_identifier { defaultOptions with host_identifier := "fqdn" }
      (JValue.obj [("name", .str "x")]) = Except.ok (.str "x") ∧
    get_host_identifier { defaultOptions with host_identifier := "fqdn" }
      (JValue.obj [("name", .str "x"),
        ("properties", .list [.obj [("name", .str "fqdn"),
          ("value", .str "x.example.com")]])]) =
      Except.ok (.str "x.example.com") := by
  constructor
  · have h := (get_host_identifier_total
      { defaultOptions with host_identifier := "fqdn" }
      (JValue.obj [("name", .str "x")]) [] rfl).2.2 (by decide) (by decide)
    rw [h]; rfl
  · have h := (get_host_identifier_total
      { defaultOptions with host_identifier := "fqdn" }
      (JValue.obj [("name", .str "x"),
        ("properties", .list [.obj [("name", .str "fqdn"),
          ("value", .str "x.example.com")]])])
      [(.str "fqdn", .str "x.example.com")] rfl).2.2 (by decide) (by decide)
    rw [h]; rfl

theorem hosts_add_group (i : Inventory) (g : String) :
    (i.add_group g).hosts = i.hosts := rfl

theorem hosts_add_child (i : Inventory) (g : String) (c : JValue) :
    (i.add_child g c).hosts = i.hosts := rfl

theorem hosts_set_variable (i : Inventory) (h : JValue) (k : String) (v : JValue) :
    (i.set_variable h k v).hosts = i.hosts := rfl

theorem hosts_add_host (i : Inventory) (h : JValue) :
    (i.add_host h).hosts = i.hosts ++ [h] := rfl

theorem hosts_foldl {α : Type} (f : Inventory → α → Inventory)
    (hf : ∀ i a, (f i a).hosts = i.hosts) :
    ∀ (l : List α) (i : Inventory), (List.foldl f i l).hosts = i.hosts := by
  intro l
  induction l with
  | nil => intro i; rfl
  | cons a l ih => intro i; rw [List.foldl_cons, ih, hf]

theorem hosts_set_host_vars (inv : Inventory) (h : JValue)
    (hv : List (String × JValue)) : (set_host_vars inv h hv).hosts = inv.hosts := by
  unfold set_host_vars
  exact hosts_foldl (fun i kv => i.set_variable h kv.1 kv.2)
    (fun i kv => rfl) hv inv

theorem hosts_add_env_group (opts : Options) (environment h : JValue)
    (inv : Inventory) : (add_env_group opts environment h inv).hosts = inv.hosts := by
  unfold add_env_group
  split <;> rfl

theorem hosts_add_tag_groups {opts : Options} {node h : JValue} {inv inv' : Inventory}
    (hrun : add_tag_groups opts node h inv = Except.ok inv') :
    inv'.hosts = inv.hosts := by
  unfold add_tag_groups at hrun
  split at hrun
  · split at hrun
    case h_1 s =>
      cases hrun
      refine hosts_foldl _ ?_ _ _
      intro i t
      dsimp only
      split <;> rfl
    all_goals cases hrun
  · cases hrun
    rfl

theorem hosts_add_tech_group (opts : Options) (node h : JValue)
    (inv : Inventory) : (add_tech_group opts node h inv).hosts = inv.hosts := by
  unfold add_tech_group
  split <;> rfl

theorem hosts_add_hierarchy_groups (opts : Options) (parent_groups : List String)
    (h : JValue) (inv : Inventory) :
    (add_hierarchy_groups opts parent_groups h inv).hosts = inv.hosts := by
  unfold add_hierarchy_groups
  split
  · refine hosts_foldl _ ?_ _ _
    intro i g
    split
    · rfl
    · rfl
  · rfl

/-- The host list after _add_host_to_inventory: exactly one add_host call with
the resolved identifier when it is truthy, none otherwise. -/
theorem add_host_to_inventory_hosts (opts : Options) (node : JValue)
    (environment : JValue) (hierarchy : List JValue) (parent_groups : List String)
    (inv inv' : Inventory) (hid : JValue)
    (hget : get_host_identifier opts node = Except.ok hid)
    (hrun : add_host_to_inventory opts node environment hierarchy parent_groups inv =
      Except.ok inv') :
    inv'.hosts = if truthy hid then inv.hosts ++ [hid] else inv.hosts := by
  simp only [add_host_to_inventory, hget, ebind_ok] at hrun
  by_cases ht : truthy hid = false
  · rw [if_pos ht] at hrun
    cases hrun
    rw [ht]
    simp
  · rw [if_neg ht] at hrun
    rw [Bool.not_eq_false] at ht
    rw [ht, if_pos rfl]
    rcases hx : extract_host_vars opts node environment hierarchy with e | hv <;>
      rw [hx] at hrun
    · rw [ebind_error] at hrun
      cases hrun
    · rw [ebind_ok] at hrun
      rcases htag : add_tag_groups opts node hid
          (add_env_group opts environment hid
            (set_host_vars (inv.add_host hid) hid hv)) with e | i2 <;>
        rw [htag] at hrun
      · rw [ebind_error] at hrun
        cases hrun
      · rw [ebind_ok] at hrun
        cases hrun
        rw [hosts_add_hierarchy_groups, hosts_add_tech_group,
          hosts_add_tag_groups htag, hosts_add_env_group, hosts_set_host_vars,
          hosts_add_host]

/-- Claim C8: a falsy derived identifier aborts host materialization with no side
effects — the inventory is returned unchanged and no error is raised. -/
theorem empty_identifier_skips_host (opts : Options) (node : JValue)
    (environment : JValue) (hierarchy : List JValue) (parent_groups : List String)
    (inv : Inventory) (hid : JValue)
    (hget : get_host_identifier opts node = Except.ok hid)
    (ht : truthy hid = false) :
    add_host_to_inventory opts node environment hierarchy parent_groups inv =
      Except.ok inv := by
  simp only [add_host_to_inventory, hget, ebind_ok]
  rw [if_pos ht]

/-- A closed instance of the C8 theorem: a node whose name is the empty
string is silently skipped. -/
theorem empty_identifier_skips_host_witness :
    add_host_to_inventory defaultOptions (JValue.obj [("name", .str "")])
      (.str "Production") [] ["g"] emptyInventory = Except.ok emptyInventory :=
  empty_identifier_skips_host defaultOptions (JValue.obj [("name", .str "")])
    (.str "Production") [] ["g"] emptyInventory (.str "") rfl rfl

/-- Claim C10: with host_identifier "id" and a node lacking both id and name,
resolution returns the literal string "None" (str() of Python None), which is
truthy, so a host named "None" is registered rather than the node being
skipped. -/
theorem missing_id_and_name_yields_none_host (opts : Options) (node : JValue)
    (environment : JValue) (hierarchy : List JValue) (parent_groups : List String)
    (inv inv' : Inventory)
    (hmode : opts.host_identifier = "id")
    (hid : jGet node "id" = none) (hname : jGet node "name" = none) :
    get_host_identifier opts node = Except.ok (.str "None") ∧
    truthy (JValue.str "None") = true ∧
    (add_host_to_inventory opts node environment hierarchy parent_groups inv =
        Except.ok inv' →
      inv'.hosts = inv.hosts ++ [.str "None"]) := by
  have h1 : get_host_identifier opts node = Except.ok (.str "None") := by
    simp [get_host_identifier, hmode, jGetD, hid, hname, pyStr, pyRepr]
  refine ⟨h1, rfl, ?_⟩
  intro hrun
  have := add_host_to_inventory_hosts opts node environment hierarchy parent_groups
    inv inv' (.str "None") h1 hrun
  simpa using this

/-- A closed instance of the C10 theorem: the empty node yields the host
"None" in id mode. -/
theorem missing_id_and_name_yields_none_host_witness :
    get_host_identifier { defaultOptions with host_identifier := "id" }
      (JValue.obj []) = Except.ok (.str "None") ∧
    Inventory.hosts
      ⟨[.str "None"], [], [],
        [(.str "None", "structurizr_id", .null),
         (.str "None", "structurizr_name", .null)]⟩ =
      emptyInventory.hosts ++ [.str "None"] := by
  have h := missing_id_and_name_yields_none_host
    { defaultOptions with host_identifier := "id" } (JValue.obj [])
    JValue.null [] [] emptyInventory
    ⟨[.str "None"], [], [],
      [(.str "None", "structurizr_id", .null),
       (.str "None", "structurizr_name", .null)]⟩
    rfl rfl rfl
  exact ⟨h.1, h.2.2 rfl⟩

/-! ## Host-variable key policy (claim C6) -/

theorem lookup_dictSetS_self :
    ∀ (d : List (String × JValue)) (k : String) (v : JValue),
      lookupField (dictSetS d k v) k = some v := by
  intro d
  induction d with
  | nil => intro k v; simp [dictSetS, lookupField]
  | cons kv rest ih =>
      intro k v
      by_cases h : kv.1 = k
      · simp [dictSetS, h, lookupField]
      · simp only [dictSetS]
        rw [if_neg h]
        simp [lookupField, h, ih]

theorem lookup_dictSetS_ne :
    ∀ (d : List (String × JValue)) (k0 : String) (v : JValue) (k : String),
      k ≠ k0 → lookupField (dictSetS d k0 v) k = lookupField d k
  | [], k0, v, k, h => by
      simp only [dictSetS, lookupField]
      rw [if_neg (fun hh => h hh.symm)]
  | (k1, v1) :: rest, k0, v, k, h => by
      by_cases h1 : k1 = k0
      · simp only [dictSetS]
        rw [if_pos h1]
        simp only [lookupField]
        have h2 : ¬ k1 = k := fun hh => h (hh.symm.trans h1)
        rw [if_neg h2, if_neg h2]
      · simp only [dictSetS]
        rw [if_neg h1]
        simp only [lookupField]
        by_cases h2 : k1 = k
        · rw [if_pos h2, if_pos h2]
        · rw [if_neg h2, if_neg h2]
          exact lookup_dictSetS_ne rest k0 v k h

/-- The key the properties loop of _extract_host_vars uses for an arbitrary
dict entry (non-string names raise before any key is computed). -/
def prop_key_of (opts : Options) (kv : JValue × JValue) : String :=
  match kv.1 with
  | .str s => emitted_key opts s
  | _ => ""

theorem prop_step_str {opts : Options} {kv : JValue × JValue} {s : String}
    (hk : kv.1 = JValue.str s) (acc : List (String × JValue)) :
    prop_step opts acc kv = Except.ok (dictSetS acc (emitted_key opts s) kv.2) := by
  unfold prop_step
  rw [hk]

theorem prop_step_cases {opts : Options} {acc acc2 : List (String × JValue)}
    {kv : JValue × JValue} (hstep : prop_step opts acc kv = Except.ok acc2) :
    ∃ s, kv.1 = JValue.str s ∧ acc2 = dictSetS acc (emitted_key opts s) kv.2 := by
  unfold prop_step at hstep
  split at hstep
  · rename_i s hk
    cases hstep
    exact ⟨s, hk, rfl⟩
  · cases hstep

theorem foldlM_cons_except {α β : Type} (f : β → α → Except String β) (b : β)
    (a : α) (l : List α) :
    List.foldlM f b (a :: l) = f b a >>= fun b2 => List.foldlM f b2 l := by
  simp [List.foldlM_cons]

theorem props_fold_untouched (opts : Options) :
    ∀ (ps : List (JValue × JValue)) (acc r : List (String × JValue)) (key : String),
      ps.foldlM (prop_step opts) acc = Except.ok r →
      (∀ kv ∈ ps, prop_key_of opts kv ≠ key) →
      lookupField r key = lookupField acc key := by
  intro ps
  induction ps with
  | nil =>
      intro acc r key h _
      cases h
      rfl
  | cons kv rest ih =>
      intro acc r key h hkeys
      rw [foldlM_cons_except] at h
      rcases hstep : prop_step opts acc kv with e | acc2 <;> rw [hstep] at h
      · rw [ebind_error] at h
        cases h
      · rw [ebind_ok] at h
        obtain ⟨s, hk, rfl⟩ := prop_step_cases hstep
        rw [ih _ r key h (fun x hx => hkeys x (by simp [hx]))]
        refine lookup_dictSetS_ne acc (emitted_key opts s) kv.2 key ?_
        intro he
        exact hkeys kv (by simp) (by simp [prop_key_of, hk, he])

theorem props_fold_lookup (opts : Options) :
    ∀ (ps : List (JValue × JValue)) (acc r : List (String × JValue)),
      ps.foldlM (prop_step opts) acc = Except.ok r →
      (ps.map (prop_key_of opts)).Nodup →
      ∀ (s : String) (v : JValue), (JValue.str s, v) ∈ ps →
        lookupField r (emitted_key opts s) = some v := by
  intro ps
  induction ps with
  | nil =>
      intro acc r _ _ s v hmem
      cases hmem
  | cons kv rest ih =>
      intro acc r h hnd s v hmem
      rw [List.map_cons, List.nodup_cons] at hnd
      rw [foldlM_cons_except] at h
      rcases List.mem_cons.mp hmem with hhead | htail
      · have hk : kv.1 = JValue.str s := by rw [← hhead]
        have hv : kv.2 = v := by rw [← hhead]
        rw [prop_step_str hk, ebind_ok] at h
        rw [props_fold_untouched opts rest _ r (emitted_key opts s) h ?fresh]
        · rw [hv, lookup_dictSetS_self]
        case fresh =>
          intro x hx he
          apply hnd.1
          have hpk : prop_key_of opts kv = emitted_key opts s := by
            simp [prop_key_of, hk]
          rw [hpk, ← he]
          exact List.mem_map_of_mem (prop_key_of opts) hx
      · rcases hstep : prop_step opts acc kv with e | acc2 <;> rw [hstep] at h
        · rw [ebind_error] at h
          cases h
        · rw [ebind_ok] at h
          exact ih _ r h hnd.2 s v htail

/-- Claim C6: every normalized property (k, v) of a node is stored as a host
variable under key k when k starts with the reserved "ansible_" prefix or is
in the passthrough allow-list, and under the configured prefix concatenated
with k otherwise.  (The no-collision hypothesis rules out a later property
overwriting the key, matching the spec's last-write-wins caveat.) -/
theorem extract_host_vars_prop_keys (opts : Options) (node : JValue)
    (environment : JValue) (hierarchy : List JValue)
    (ps : List (JValue × JValue)) (hv : List (String × JValue))
    (s : String) (v : JValue)
    (hps : normalize_properties node = Except.ok ps)
    (hrun : extract_host_vars opts node environment hierarchy = Except.ok hv)
    (hmem : (JValue.str s, v) ∈ ps)
    (hnd : (ps.map (prop_key_of opts)).Nodup) :
    lookupField hv
      (if pyStartsWith s "ansible_" || opts.ansible_property_passthrough.contains s
       then s else opts.property_pfx ++ s) = some v := by
  have hkey : (if pyStartsWith s "ansible_" ||
        opts.ansible_property_passthrough.contains s
      then s else opts.property_pfx ++ s) = emitted_key opts s := by
    unfold emitted_key
    split
    · rfl
    · split
      case isTrue => rfl
      case isFalse h =>
        simp only [bne_iff_ne, ne_eq, Decidable.not_not] at h
        rw [h]
        simp
  rw [hkey]
  simp only [extract_host_vars] at hrun
  rcases hb : base_host_vars node environment hierarchy with e | hv0 <;>
    rw [hb] at hrun
  · rw [ebind_error] at hrun
    cases hrun
  · rw [ebind_ok, hps, ebind_ok] at hrun
    exact props_fold_lookup opts ps hv0 hv hrun hnd s v hmem

/-- The options and node of the C6 example (property_prefix "structurizr_",
properties ansible_host and custom_var). -/
def c6_opts : Options := { defaultOptions with property_pfx := "structurizr_" }

def c6_node : JValue := .obj [("id", .str "111"), ("name", .str "web-prod-01"),
  ("properties", .list
    [.obj [("name", .str "ansible_host"), ("value", .str "10.0.1.10")],
     .obj [("name", .str "custom_var"), ("value", .str "custom_value")]])]

def c6_hv : List (String × JValue) :=
  [("structurizr_id", .str "111"), ("structurizr_name", .str "web-prod-01"),
   ("ansible_host", .str "10.0.1.10"),
   ("structurizr_custom_var", .str "custom_value")]

/-- A closed instance of the C6 theorem: with property_prefix "structurizr_",
the ansible_host property stays under key ansible_host while custom_var is
stored under structurizr_custom_var. -/
theorem extract_host_vars_prop_keys_witness :
    lookupField c6_hv "ansible_host" = some (.str "10.0.1.10") ∧
    lookupField c6_hv "structurizr_custom_var" = some (.str "custom_value") := by
  have h1 := extract_host_vars_prop_keys c6_opts c6_node .null []
    [(.str "ansible_host", .str "10.0.1.10"), (.str "custom_var", .str "custom_value")]
    c6_hv "ansible_host" (.str "10.0.1.10") rfl rfl (by decide) (by decide)
  have h2 := extract_host_vars_prop_keys c6_opts c6_node .null []
    [(.str "ansible_host", .str "10.0.1.10"), (.str "custom_var", .str "custom_value")]
    c6_hv "custom_var" (.str "custom_value") rfl rfl (by decide) (by decide)
  exact ⟨h1, h2⟩

/-! ## Traversal-level claims (C1, C2, C4) -/

/-- The workspace of the repository's own unit test
test_force_host_with_children: a parent deployment node with children and
ansible_force_host "true", plus one leaf child. -/
def force_host_workspace : JValue := .obj [("model", .obj [("deploymentNodes", .list [
  .obj [("id", .str "1"), ("name", .str "hypervisor-01"),
        ("environment", .str "Production"),
        ("properties", .obj [("ansible_force_host", .str "true"),
                             ("ansible_host", .str "192.168.1.10")]),
        ("children", .list [
          .obj [("id", .str "2"), ("name", .str "vm-01"),
                ("properties", .obj [("ansible_host", .str "10.0.0.1")])]])]])])]

/-- Claim C1: the plugin never consults the force-host property.  On the workspace
of the repository's unit test test_force_host_with_children (which asserts
that hypervisor-01 becomes a host), the traversal materializes only the leaf
vm-01 and not the forced parent hypervisor-01. -/
theorem force_host_property_ignored :
    (match parse_workspace defaultOptions 10 force_host_workspace emptyInventory with
     | .ok inv => !(inv.hosts.contains (.str "hypervisor-01")) &&
         inv.hosts.contains (.str "vm-01")
     | .error _ => false) = true := by decide

/-- A workspace whose single leaf is named like its own environment group:
host env_production inside environment Production. -/
def env_collision_workspace : JValue := .obj [("model", .obj [("deploymentNodes", .list [
  .obj [("name", .str "Production"), ("children", .list [
    .obj [("name", .str "env_production")]])]])])]

/-- Claim C2 counterexample: with the default options, a traversal registers the
host env_production as a child of the environment group env_production — a
group whose sanitized name equals the host's own identifier.  The
self-identity guard exists only in the hierarchy-group branch. -/
theorem host_in_same_named_env_group :
    (match parse_workspace defaultOptions 10 env_collision_workspace emptyInventory with
     | .ok inv => inv.children.contains ("env_production", .str "env_production") &&
         inv.hosts.contains (.str "env_production")
     | .error _ => false) = true := by decide

/-- A top-level deployment node carrying an explicitly empty children list. -/
def empty_children_workspace : JValue := .obj [("model", .obj [("deploymentNodes", .list [
  .obj [("name", .str "solo"), ("children", .list [])]])])]

/-- Claim C4 counterexample: a top-level deployment node with a present-but-empty
children list has no child deployment nodes, yet nothing at all is walked —
no host solo is produced, because the node-itself fallback triggers only when
the children key is absent. -/
theorem empty_children_list_walks_nothing :
    parse_workspace defaultOptions 10 empty_children_workspace emptyInventory =
      Except.ok emptyInventory := by rfl

/-! ## Root dispatch characterization (claim C4) -/

theorem lookupField_mem :
    ∀ {fs : List (String × JValue)} {key : String} {v : JValue},
      lookupField fs key = some v → (key, v) ∈ fs
  | [], _, _, h => by cases h
  | (k1, v1) :: rest, key, v, h => by
      simp only [lookupField] at h
      by_cases hk : k1 = key
      · rw [if_pos hk] at h
        cases h
        rw [← hk]
        exact List.mem_cons_self _ _
      · rw [if_neg hk] at h
        exact List.mem_cons_of_mem _ (lookupField_mem h)

theorem sizeOf_jGet {node : JValue} {key : String} {v : JValue}
    (h : jGet node key = some v) : sizeOf v < sizeOf node := by
  rcases node with _ | b | n | s | xs | fs <;> try cases h
  simp only [jGet] at h
  have hmem := lookupField_mem h
  have h1 : sizeOf (key, v) < sizeOf fs := List.sizeOf_lt_of_mem hmem
  have h2 : sizeOf (JValue.obj fs) = 1 + sizeOf fs := by simp
  have h3 : sizeOf (key, v) = 1 + sizeOf key + sizeOf v := by simp
  omega

theorem jGet_list_mem_ne {node : JValue} {key : String} {xs : List JValue}
    {c : JValue} (h : jGet node key = some (.list xs)) (hc : c ∈ xs) :
    c ≠ node := by
  have h1 : sizeOf (JValue.list xs) < sizeOf node := sizeOf_jGet h
  have h2 : sizeOf c < sizeOf xs := List.sizeOf_lt_of_mem hc
  have h3 : sizeOf (JValue.list xs) = 1 + sizeOf xs := by simp
  intro he
  subst he
  omega

theorem foldlM_congr_except {α β : Type} {l : List α}
    {f g : β → α → Except String β} (h : ∀ a ∈ l, ∀ b, f b a = g b a) :
    ∀ b, l.foldlM f b = l.foldlM g b := by
  induction l with
  | nil => intro b; rfl
  | cons a l ih =>
      intro b
      rw [foldlM_cons_except, foldlM_cons_except, h a (by simp)]
      rcases hr : g b a with e | b2
      · rw [ebind_error, ebind_error]
      · rw [ebind_ok, ebind_ok]
        exact ih (fun x hx b3 => h x (by simp [hx]) b3) b2

theorem except_bind_pure {α : Type} (x : Except String α) :
    (x >>= fun a => Except.ok a) = x := by
  cases x <;> rfl

/-- Claim C4 amended: for a top-level deployment node passing the environment
filter, the dispatch is: children key absent — the node itself is walked as
the sole entity; children key present with a list value — exactly the listed
children are walked (so a present-but-empty list walks nothing, and the
node-itself fallback applies only when the key is absent). -/
theorem process_env_node_dispatch (opts : Options) (fuel : Nat)
    (env_node : JValue) (inv : Inventory)
    (hfilter : env_filter_skips opts
      (jGetD env_node "environment" (jGetD env_node "name" .null)) = false) :
    (jGet env_node "children" = none →
      process_env_node opts fuel env_node inv =
        process_deployment_node opts fuel env_node
          (jGetD env_node "environment" (jGetD env_node "name" .null)) [] [] inv) ∧
    (∀ xs, jGet env_node "children" = some (.list xs) →
      process_env_node opts fuel env_node inv =
        xs.foldlM (fun i c => process_deployment_node opts fuel c
          (jGetD env_node "environment" (jGetD env_node "name" .null)) [] [] i) inv) := by
  constructor
  · intro hch
    simp only [process_env_node, hfilter, Bool.false_eq_true, if_false]
    have hd : jGetD env_node "children" (.list [env_node]) = .list [env_node] := by
      simp [jGetD, hch]
    rw [hd]
    simp only [pyIterate, ebind_ok]
    rw [foldlM_cons_except]
    have hcond : (env_node == env_node &&
        !truthy (jGetD env_node "children" JValue.null)) = true := by
      simp [jGetD, hch, truthy]
    rw [if_pos hcond]
    exact except_bind_pure _
  · intro xs hch
    simp only [process_env_node, hfilter, Bool.false_eq_true, if_false]
    have hd : jGetD env_node "children" (.list [env_node]) = .list xs := by
      simp [jGetD, hch]
    rw [hd]
    simp only [pyIterate, ebind_ok]
    refine foldlM_congr_except ?_ inv
    intro c hc i
    have hne : c ≠ env_node := jGet_list_mem_ne hch hc
    have hb1 : (c == env_node) = false := by
      simp [hne]
    have hb2 : (c != env_node) = true := by
      simp [bne, hb1]
    rw [hb1]
    simp only [Bool.false_and, Bool.false_eq_true, if_false]
    rw [if_pos hb2]

/-- A closed instance of the C4 amended theorem: a top-level node without a
children key is itself walked as the sole entity. -/
theorem process_env_node_dispatch_witness :
    process_env_node defaultOptions 10 (JValue.obj [("name", .str "W")])
      emptyInventory =
    process_deployment_node defaultOptions 10 (JValue.obj [("name", .str "W")])
      (.str "W") [] [] emptyInventory :=
  (process_env_node_dispatch defaultOptions 10 (JValue.obj [("name", .str "W")])
    emptyInventory rfl).1 rfl

/-! ## No-self-edge invariant (claim C2 amended) -/

/-- Every child edge added between the two inventories links a group to a
child that is not the string of the group's own name. -/
def children_extend_ok (inv inv2 : Inventory) : Prop :=
  ∀ e ∈ inv2.children, e ∈ inv.children ∨ JValue.str e.1 ≠ e.2

theorem ceo_refl (inv : Inventory) : children_extend_ok inv inv :=
  fun _ he => Or.inl he

theorem ceo_trans {a b c : Inventory} (h1 : children_extend_ok a b)
    (h2 : children_extend_ok b c) : children_extend_ok a c := by
  intro e he
  rcases h2 e he with h | h
  · exact h1 e h
  · exact Or.inr h

theorem ceo_of_children_eq {a b : Inventory} (h : b.children = a.children) :
    children_extend_ok a b :=
  fun _e he => Or.inl (h ▸ he)

theorem ceo_add_child {inv : Inventory} {g : String} {c : JValue}
    (h : JValue.str g ≠ c) : children_extend_ok inv (inv.add_child g c) := by
  intro e he
  simp only [Inventory.add_child, List.mem_append, List.mem_singleton] at he
  rcases he with he | he
  · exact Or.inl he
  · subst he
    exact Or.inr h

theorem ceo_foldl {α : Type} (f : Inventory → α → Inventory)
    (hf : ∀ i a, children_extend_ok i (f i a)) :
    ∀ (l : List α) (i : Inventory), children_extend_ok i (List.foldl f i l) := by
  intro l
  induction l with
  | nil => intro i; exact ceo_refl i
  | cons a l ih => intro i; exact ceo_trans (hf i a) (ih (f i a))

theorem ceo_foldlM {α : Type} (l : List α)
    (f : Inventory → α → Except String Inventory)
    (hf : ∀ a ∈ l, ∀ i i2, f i a = Except.ok i2 → children_extend_ok i i2) :
    ∀ (i i2 : Inventory), l.foldlM f i = Except.ok i2 → children_extend_ok i i2 := by
  induction l with
  | nil =>
      intro i i2 h
      cases h
      exact ceo_refl _
  | cons a l ih =>
      intro i i2 h
      rw [foldlM_cons_except] at h
      rcases hr : f i a with e | i3 <;> rw [hr] at h
      · rw [ebind_error] at h
        cases h
      · rw [ebind_ok] at h
        exact ceo_trans (hf a (by simp) i i3 hr)
          (ih (fun x hx => hf x (by simp [hx])) i3 i2 h)

theorem pyEqJStr_false {v : JValue} {s : String} (h : pyEqJStr v s = false) :
    JValue.str s ≠ v := by
  intro he
  rw [← he] at h
  simp [pyEqJStr] at h

theorem ceo_add_hierarchy_groups (opts : Options) (parent_groups : List String)
    (hid : JValue) (inv : Inventory) :
    children_extend_ok inv (add_hierarchy_groups opts parent_groups hid inv) := by
  unfold add_hierarchy_groups
  split
  · refine ceo_foldl _ ?_ parent_groups inv
    intro i g
    dsimp only
    split
    · exact ceo_refl i
    · rename_i hne
      refine ceo_trans (ceo_of_children_eq rfl) (ceo_add_child ?_)
      exact pyEqJStr_false (by simpa using hne)
  · exact ceo_refl inv

theorem ceo_add_host_to_inventory (opts : Options)
    (h1 : opts.group_by_environment = false) (h2 : opts.group_by_tags = false)
    (h3 : opts.group_by_technology = false)
    (node environment : JValue) (hierarchy : List JValue)
    (parent_groups : List String) (inv inv2 : Inventory)
    (hrun : add_host_to_inventory opts node environment hierarchy parent_groups inv =
      Except.ok inv2) :
    children_extend_ok inv inv2 := by
  simp only [add_host_to_inventory] at hrun
  rcases hg : get_host_identifier opts node with e | hid <;> rw [hg] at hrun
  · rw [ebind_error] at hrun
    cases hrun
  · rw [ebind_ok] at hrun
    split at hrun
    · cases hrun
      exact ceo_refl _
    · rcases hx : extract_host_vars opts node environment hierarchy with e | hv <;>
        rw [hx] at hrun
      · rw [ebind_error] at hrun
        cases hrun
      · rw [ebind_ok] at hrun
        have henv : add_env_group opts environment hid
            (set_host_vars (inv.add_host hid) hid hv) =
            set_host_vars (inv.add_host hid) hid hv := by
          unfold add_env_group
          rw [h1]
          simp
        rw [henv] at hrun
        have htag : add_tag_groups opts node hid
            (set_host_vars (inv.add_host hid) hid hv) =
            Except.ok (set_host_vars (inv.add_host hid) hid hv) := by
          unfold add_tag_groups
          rw [h2]
          simp
        rw [htag, ebind_ok] at hrun
        have htech : add_tech_group opts node hid
            (set_host_vars (inv.add_host hid) hid hv) =
            set_host_vars (inv.add_host hid) hid hv := by
          unfold add_tech_group
          rw [h3]
          simp
        rw [htech] at hrun
        cases hrun
        refine ceo_trans (ceo_of_children_eq ?_) (ceo_add_hierarchy_groups _ _ _ _)
        show (set_host_vars (inv.add_host hid) hid hv).children = inv.children
        unfold set_host_vars
        have : ∀ (l : List (String × JValue)) (i : Inventory),
            (List.foldl (fun i kv => i.set_variable hid kv.1 kv.2) i l).children =
              i.children := by
          intro l
          induction l with
          | nil => intro i; rfl
          | cons kv l ih => intro i; rw [List.foldl_cons, ih]; rfl
        rw [this hv (inv.add_host hid)]
        rfl

theorem ceo_register_hierarchy_group (opts : Options) (node : JValue)
    (current_group : String) (parent_groups : List String) (inv : Inventory) :
    children_extend_ok inv (register_hierarchy_group opts node current_group
      parent_groups inv) := by
  unfold register_hierarchy_group
  split
  · refine ceo_trans (ceo_of_children_eq (rfl :
      (inv.add_group current_group).children = inv.children)) ?_
    split
    · refine ceo_foldl _ ?_ parent_groups (inv.add_group current_group)
      intro i pg
      split
      · exact ceo_refl i
      · rename_i hne
        refine ceo_add_child ?_
        intro he
        apply hne
        have : pg = current_group := by
          injection he
        simp [this]
    · exact ceo_refl _
  · exact ceo_refl inv

theorem ceo_process_deployment_node (opts : Options)
    (h1 : opts.group_by_environment = false) (h2 : opts.group_by_tags = false)
    (h3 : opts.group_by_technology = false) :
    ∀ (fuel : Nat) (node environment : JValue) (hierarchy : List JValue)
      (parent_groups : List String) (inv inv2 : Inventory),
      process_deployment_node opts fuel node environment hierarchy parent_groups inv =
        Except.ok inv2 →
      children_extend_ok inv inv2 := by
  intro fuel
  induction fuel with
  | zero => intro node env hier pgs inv inv2 h; cases h
  | succ fuel ih =>
      intro node env hier pgs inv inv2 hrun
      simp only [process_deployment_node] at hrun
      rcases hj : pyJoin "_" (hier ++ [jGetD node "name" (.str "")]) with e | joined <;>
        rw [hj] at hrun
      · rw [ebind_error] at hrun
        cases hrun
      · rw [ebind_ok] at hrun
        rcases hit : pyIterate (jGetD node "children" (.list [])) with e | children <;>
          rw [hit] at hrun
        · rw [ebind_error] at hrun
          cases hrun
        · rw [ebind_ok] at hrun
          rcases hfold : children.foldlM (fun i c =>
              process_deployment_node opts fuel c env
                (hier ++ [jGetD node "name" (.str "")])
                (if (sanitize_group_name joined != "") = true then
                  pgs ++ [sanitize_group_name joined] else pgs) i)
              (register_hierarchy_group opts node (sanitize_group_name joined) pgs inv)
              with e | i3 <;> rw [hfold] at hrun
          · rw [ebind_error] at hrun
            cases hrun
          · rw [ebind_ok] at hrun
            have hceo1 : children_extend_ok inv i3 := by
              refine ceo_trans (ceo_register_hierarchy_group opts node
                (sanitize_group_name joined) pgs inv) ?_
              exact ceo_foldlM children _ (fun c _ i i2 h => ih c env _ _ i i2 h) _ i3 hfold
            have hleafceo : ∀ (ia ib : Inventory) (ch : List JValue) (ps : List String),
                leaf_step opts node env ch ps ia = Except.ok ib →
                children_extend_ok ia ib := by
              intro ia ib ch ps hbr
              unfold leaf_step at hbr
              split at hbr
              · exact ceo_add_host_to_inventory opts h1 h2 h3 node env _ _ ia ib hbr
              · cases hbr
                exact ceo_refl _
            have hinstceo : ∀ (flag : Bool) (key : String) (ia ib : Inventory)
                (ch : List JValue) (ps : List String),
                instances_step opts flag key node env ch ps ia = Except.ok ib →
                children_extend_ok ia ib := by
              intro flag key ia ib ch ps hbr
              unfold instances_step at hbr
              split at hbr
              · rcases hi : pyIterate (jGetD node key (.list [])) with e | xs <;>
                  rw [hi] at hbr
                · rw [ebind_error] at hbr
                  cases hbr
                · rw [ebind_ok] at hbr
                  exact ceo_foldlM xs _ (fun n _ i i2 h =>
                    ceo_add_host_to_inventory opts h1 h2 h3 n env _ _ i i2 h) ia ib hbr
              · cases hbr
                exact ceo_refl _
            rcases h5 : leaf_step opts node env (hier ++ [jGetD node "name" (.str "")])
                (if (sanitize_group_name joined != "") = true then
                  pgs ++ [sanitize_group_name joined] else pgs) i3 with e | i4 <;>
              rw [h5] at hrun
            · rw [ebind_error] at hrun
              cases hrun
            · rw [ebind_ok] at hrun
              rcases h6 : instances_step opts opts.include_infrastructure_nodes
                  "infrastructureNodes" node env
                  (hier ++ [jGetD node "name" (.str "")])
                  (if (sanitize_group_name joined != "") = true then
                    pgs ++ [sanitize_group_name joined] else pgs) i4 with e | i5 <;>
                rw [h6] at hrun
              · rw [ebind_error] at hrun
                cases hrun
              · rw [ebind_ok] at hrun
                rcases h7 : instances_step opts opts.include_software_system_instances
                    "softwareSystemInstances" node env
                    (hier ++ [jGetD node "name" (.str "")])
                    (if (sanitize_group_name joined != "") = true then
                      pgs ++ [sanitize_group_name joined] else pgs) i5 with e | i6 <;>
                  rw [h7] at hrun
                · rw [ebind_error] at hrun
                  cases hrun
                · rw [ebind_ok] at hrun
                  rcases h8 : instances_step opts opts.include_container_instances
                      "containerInstances" node env
                      (hier ++ [jGetD node "name" (.str "")])
                      (if (sanitize_group_name joined != "") = true then
                        pgs ++ [sanitize_group_name joined] else pgs) i6 with e | i7 <;>
                    rw [h8] at hrun
                  · rw [ebind_error] at hrun
                    cases hrun
                  · rw [ebind_ok] at hrun
                    cases hrun
                    exact ceo_trans hceo1 (ceo_trans (hleafceo i3 i4 _ _ h5)
                      (ceo_trans (hinstceo _ _ i4 i5 _ _ h6)
                        (ceo_trans (hinstceo _ _ i5 i6 _ _ h7)
                          (hinstceo _ _ i6 _ _ _ h8))))

theorem ceo_process_env_node (opts : Options)
    (h1 : opts.group_by_environment = false) (h2 : opts.group_by_tags = false)
    (h3 : opts.group_by_technology = false)
    (fuel : Nat) (env_node : JValue) (inv inv2 : Inventory)
    (hrun : process_env_node opts fuel env_node inv = Except.ok inv2) :
    children_extend_ok inv inv2 := by
  simp only [process_env_node] at hrun
  split at hrun
  · cases hrun
    exact ceo_refl _
  · rcases hit : pyIterate (jGetD env_node "children" (.list [env_node]))
        with e | entities <;> rw [hit] at hrun
    · rw [ebind_error] at hrun
      cases hrun
    · rw [ebind_ok] at hrun
      refine ceo_foldlM entities _ ?_ inv inv2 hrun
      intro a _ i i2 h
      revert h
      split
      · intro h
        exact ceo_process_deployment_node opts h1 h2 h3 fuel a _ [] [] i i2 h
      · split
        · intro h
          exact ceo_process_deployment_node opts h1 h2 h3 fuel a _ [] [] i i2 h
        · intro h
          cases h
          exact ceo_refl _

/-- Claim C2 amended: the self-identity guard exists only for hierarchy groups, so
with the environment, tag and technology grouping policies disabled every
child registration of a whole parse links a group to a child different from
the string of the group's own name — no host (and no group) is ever
registered as a child of a group whose name equals its own identifier. -/
theorem no_self_named_group_membership (opts : Options)
    (h1 : opts.group_by_environment = false) (h2 : opts.group_by_tags = false)
    (h3 : opts.group_by_technology = false)
    (fuel : Nat) (workspace_data : JValue) (inv inv2 : Inventory)
    (hrun : parse_workspace opts fuel workspace_data inv = Except.ok inv2) :
    ∀ g c, (g, c) ∈ inv2.children → (g, c) ∈ inv.children ∨ JValue.str g ≠ c := by
  simp only [parse_workspace] at hrun
  rcases hit : pyIterate (jGetD (jGetD workspace_data "model" (.obj []))
      "deploymentNodes" (.list [])) with e | nodes <;> rw [hit] at hrun
  · rw [ebind_error] at hrun
    cases hrun
  · rw [ebind_ok] at hrun
    have := ceo_foldlM nodes _ (fun n _ i i2 h =>
      ceo_process_env_node opts h1 h2 h3 fuel n i i2 h) inv inv2 hrun
    intro g c hmem
    exact this (g, c) hmem

/-- The options and workspace of the C2 witness run: only hierarchy grouping
on, id-based identifiers, one environment with one leaf child. -/
def c2_opts : Options :=
  { defaultOptions with
    group_by_environment := false
    group_by_tags := false
    group_by_technology := false
    host_identifier := "id" }

def c2_witness_workspace : JValue := .obj [("model", .obj [("deploymentNodes", .list [
  .obj [("name", .str "P"), ("children", .list [
    .obj [("name", .str "a"), ("id", .str "h1")]])]])])]

/-- A closed instance of the C2 amended theorem, at the hierarchy edge
("a", "h1") produced by parsing the witness workspace. -/
theorem no_self_named_group_membership_witness :
    ("a", JValue.str "h1") ∈ emptyInventory.children ∨
      JValue.str "a" ≠ JValue.str "h1" :=
  no_self_named_group_membership c2_opts rfl rfl rfl 10 c2_witness_workspace
    emptyInventory
    ⟨[.str "h1"], ["a"], [("a", .str "h1")],
      [(.str "h1", "structurizr_id", .str "h1"),
       (.str "h1", "structurizr_name", .str "a"),
       (.str "h1", "structurizr_environment", .str "P"),
       (.str "h1", "structurizr_hierarchy", .list [.str "a"])]⟩
    rfl "a" (.str "h1") (by decide)

end Structurizr
